import Mathlib

/-!
Verification of the `marked_cylindrical_isolation_engine` Cython kernel from
`halotools/mock_observables/isolation_functions/engines/marked_cylindrical_isolation_engine.pyx`.

The kernel is shallowly embedded below: 64-bit float coordinates are modelled
as exact rationals (`ℚ`), C integers as `ℕ`/`ℤ`, the numpy arrays as lists, and
the Python `ValueError` raised for an unknown conditional-function id as the
`none` case of an `Option` result.  The `RectangularDoubleMesh` object is an
external collaborator of the kernel; the engine only reads a fixed set of its
attributes, which are captured verbatim as fields of `SingleMesh`/`DoubleMesh`.
-/

set_option maxRecDepth 4000

namespace Halotools

/-- One of the two rectangular meshes inside a `RectangularDoubleMesh`.  The
fields are exactly the attributes the engine reads: the sort permutation
`idx_sorted` (sorted position ↦ original index), the cell offset table
`cell_id_indices`, the number of divisions per axis and the cell size per
axis. -/
structure SingleMesh where
  idx_sorted : List ℕ
  cell_id_indices : List ℕ
  num_xdivs : ℕ
  num_ydivs : ℕ
  num_zdivs : ℕ
  xcell_size : ℚ
  ycell_size : ℚ
  zcell_size : ℚ

/-- The `RectangularDoubleMesh` attributes read by the engine: the two meshes,
the three box periods, the three global maximal search lengths and the
periodic-boundary-conditions flag `_PBCs` (an `int` in the source, multiplied
into the shifts). -/
structure DoubleMesh where
  mesh1 : SingleMesh
  mesh2 : SingleMesh
  xperiod : ℚ
  yperiod : ℚ
  zperiod : ℚ
  search_xlength : ℚ
  search_ylength : ℚ
  search_zlength : ℚ
  PBCs : ℤ

/-- The array arguments of `marked_cylindrical_isolation_engine` (everything
except `cell1_tuple`, which is passed separately so that different work ranges
over the same data can be compared). -/
structure EngineInput where
  double_mesh : DoubleMesh
  x1in : List ℚ
  y1in : List ℚ
  z1in : List ℚ
  x2in : List ℚ
  y2in : List ℚ
  z2in : List ℚ
  weights1in : List (List ℚ)
  weights2in : List (List ℚ)
  weight_func_idin : ℤ
  rp_max : List ℚ
  pi_max : List ℚ

/-- Type of the conditional (marking) functions: `bint (*f_type)(w1, w2)`. -/
abbrev CondFun := List ℚ → List ℚ → Bool

/-- Modelled from the spec: the marking function `trivial` lives in
`isolation_criteria_marking_functions.pyx`, which is not among the sources;
the spec's predicate table gives its semantics: always `true`. -/
def trivial : CondFun := fun _ _ => true

/-- Modelled from the spec: `gt_cond` from
`isolation_criteria_marking_functions.pyx` (not among the sources) is
`w1[0] > w2[0]`. -/
def gt_cond : CondFun := fun w1 w2 => decide (w1.getD 0 0 > w2.getD 0 0)

/-- Modelled from the spec: `lt_cond` from
`isolation_criteria_marking_functions.pyx` (not among the sources) is
`w1[0] < w2[0]`. -/
def lt_cond : CondFun := fun w1 w2 => decide (w1.getD 0 0 < w2.getD 0 0)

/-- Modelled from the spec: `eq_cond` from
`isolation_criteria_marking_functions.pyx` (not among the sources) is
`w1[0] == w2[0]`. -/
def eq_cond : CondFun := fun w1 w2 => decide (w1.getD 0 0 = w2.getD 0 0)

/-- Modelled from the spec: `neq_cond` from
`isolation_criteria_marking_functions.pyx` (not among the sources) is
`w1[0] != w2[0]`. -/
def neq_cond : CondFun := fun w1 w2 => decide (w1.getD 0 0 ≠ w2.getD 0 0)

/-- Modelled from the spec: `tg_cond` ("greater-than-or-equal") from
`isolation_criteria_marking_functions.pyx` (not among the sources) is
`w1[0] >= w2[0]`. -/
def tg_cond : CondFun := fun w1 w2 => decide (w1.getD 0 0 ≥ w2.getD 0 0)

/-- Modelled from the spec: `lg_cond` ("less-than-or-equal") from
`isolation_criteria_marking_functions.pyx` (not among the sources) is
`w1[0] <= w2[0]`. -/
def lg_cond : CondFun := fun w1 w2 => decide (w1.getD 0 0 ≤ w2.getD 0 0)

/-- Dispatch `return_conditional_function` from the source: dispatch from the integer
conditional-function id to the marking function.  The Python
`raise ValueError` branch is modelled as `none`. -/
def return_conditional_function (cond_func_id : ℤ) : Option CondFun :=
  if cond_func_id = 0 then some trivial
  else if cond_func_id = 1 then some gt_cond
  else if cond_func_id = 2 then some lt_cond
  else if cond_func_id = 3 then some eq_cond
  else if cond_func_id = 4 then some neq_cond
  else if cond_func_id = 5 then some tg_cond
  else if cond_func_id = 6 then some lg_cond
  else none

/-- Sorted primary x-coordinates: `x1 = x1in[double_mesh.mesh1.idx_sorted]`. -/
def x1 (inp : EngineInput) : List ℚ :=
  inp.double_mesh.mesh1.idx_sorted.map (fun k => inp.x1in.getD k 0)

/-- Sorted primary y-coordinates. -/
def y1 (inp : EngineInput) : List ℚ :=
  inp.double_mesh.mesh1.idx_sorted.map (fun k => inp.y1in.getD k 0)

/-- Sorted primary z-coordinates. -/
def z1 (inp : EngineInput) : List ℚ :=
  inp.double_mesh.mesh1.idx_sorted.map (fun k => inp.z1in.getD k 0)

/-- Sorted secondary x-coordinates: `x2 = x2in[double_mesh.mesh2.idx_sorted]`. -/
def x2 (inp : EngineInput) : List ℚ :=
  inp.double_mesh.mesh2.idx_sorted.map (fun k => inp.x2in.getD k 0)

/-- Sorted secondary y-coordinates. -/
def y2 (inp : EngineInput) : List ℚ :=
  inp.double_mesh.mesh2.idx_sorted.map (fun k => inp.y2in.getD k 0)

/-- Sorted secondary z-coordinates. -/
def z2 (inp : EngineInput) : List ℚ :=
  inp.double_mesh.mesh2.idx_sorted.map (fun k => inp.z2in.getD k 0)

/-- Sorted primary weight rows: `weights1 = weights1in[idx_sorted, :]`. -/
def weights1 (inp : EngineInput) : List (List ℚ) :=
  inp.double_mesh.mesh1.idx_sorted.map (fun k => inp.weights1in.getD k [])

/-- Sorted secondary weight rows. -/
def weights2 (inp : EngineInput) : List (List ℚ) :=
  inp.double_mesh.mesh2.idx_sorted.map (fun k => inp.weights2in.getD k [])

/-- Squared radii `rp_max_squared`: the per-point projected radii are squared in original
order and then permuted into sorted order. -/
def rp_max_squared (inp : EngineInput) : List ℚ :=
  inp.double_mesh.mesh1.idx_sorted.map
    (fun k => inp.rp_max.getD k 0 * inp.rp_max.getD k 0)

/-- Squared half-lengths `pi_max_squared`: the per-point line-of-sight half-lengths squared and
permuted into sorted order. -/
def pi_max_squared (inp : EngineInput) : List ℚ :=
  inp.double_mesh.mesh1.idx_sorted.map
    (fun k => inp.pi_max.getD k 0 * inp.pi_max.getD k 0)

/-- Covering steps `num_x2_covering_steps = int(np.ceil(search_xlength / mesh2.xcell_size))`. -/
def num_x2_covering_steps (inp : EngineInput) : ℤ :=
  Int.ceil (inp.double_mesh.search_xlength / inp.double_mesh.mesh2.xcell_size)

/-- Covering steps `num_y2_covering_steps = int(np.ceil(search_ylength / mesh2.ycell_size))`. -/
def num_y2_covering_steps (inp : EngineInput) : ℤ :=
  Int.ceil (inp.double_mesh.search_ylength / inp.double_mesh.mesh2.ycell_size)

/-- Covering steps `num_z2_covering_steps = int(np.ceil(search_zlength / mesh2.zcell_size))`. -/
def num_z2_covering_steps (inp : EngineInput) : ℤ :=
  Int.ceil (inp.double_mesh.search_zlength / inp.double_mesh.mesh2.zcell_size)

/-- Ratio `num_x2_per_x1 = num_x2divs // num_x1divs` (C/Python floor division; the
source performs no divisibility check). -/
def num_x2_per_x1 (inp : EngineInput) : ℕ :=
  inp.double_mesh.mesh2.num_xdivs / inp.double_mesh.mesh1.num_xdivs

/-- Ratio `num_y2_per_y1 = num_y2divs // num_y1divs`. -/
def num_y2_per_y1 (inp : EngineInput) : ℕ :=
  inp.double_mesh.mesh2.num_ydivs / inp.double_mesh.mesh1.num_ydivs

/-- Ratio `num_z2_per_z1 = num_z2divs // num_z1divs`. -/
def num_z2_per_z1 (inp : EngineInput) : ℕ :=
  inp.double_mesh.mesh2.num_zdivs / inp.double_mesh.mesh1.num_zdivs

/-- The 3D lattice coordinate `(ix1, iy1, iz1)` of primary cell `icell1`:
`ix1 = icell1 // (num_y1divs*num_z1divs)`,
`iy1 = (icell1 - ix1*num_y1divs*num_z1divs) // num_z1divs`,
`iz1 = icell1 - ix1*num_y1divs*num_z1divs - iy1*num_z1divs`. -/
def cellCoord1 (inp : EngineInput) (icell1 : ℕ) : ℕ × ℕ × ℕ :=
  let ny := inp.double_mesh.mesh1.num_ydivs
  let nz := inp.double_mesh.mesh1.num_zdivs
  let ix1 := icell1 / (ny * nz)
  let iy1 := (icell1 - ix1 * ny * nz) / nz
  let iz1 := icell1 - ix1 * ny * nz - iy1 * nz
  (ix1, iy1, iz1)

/-- The list of integers `a, a+1, ..., b-1`, i.e. the Python `range(a, b)`
over (possibly negative) integers. -/
def intRange (a b : ℤ) : List ℤ :=
  (List.range (b - a).toNat).map (fun (k : ℕ) => a + (k : ℤ))

/-- Raw (unwrapped) secondary x-lattice coordinates scanned for a primary cell
with x-coordinate `ix1`: `range(leftmost_ix2, rightmost_ix2)` with
`leftmost_ix2 = ix1*num_x2_per_x1 - num_x2_covering_steps` and
`rightmost_ix2 = (ix1+1)*num_x2_per_x1 + num_x2_covering_steps`. -/
def xWindow (inp : EngineInput) (ix1 : ℕ) : List ℤ :=
  intRange ((ix1 : ℤ) * (num_x2_per_x1 inp : ℤ) - num_x2_covering_steps inp)
    (((ix1 : ℤ) + 1) * (num_x2_per_x1 inp : ℤ) + num_x2_covering_steps inp)

/-- Raw secondary y-lattice coordinates scanned for primary y-coordinate `iy1`. -/
def yWindow (inp : EngineInput) (iy1 : ℕ) : List ℤ :=
  intRange ((iy1 : ℤ) * (num_y2_per_y1 inp : ℤ) - num_y2_covering_steps inp)
    (((iy1 : ℤ) + 1) * (num_y2_per_y1 inp : ℤ) + num_y2_covering_steps inp)

/-- Raw secondary z-lattice coordinates scanned for primary z-coordinate `iz1`. -/
def zWindow (inp : EngineInput) (iz1 : ℕ) : List ℤ :=
  intRange ((iz1 : ℤ) * (num_z2_per_z1 inp : ℤ) - num_z2_covering_steps inp)
    (((iz1 : ℤ) + 1) * (num_z2_per_z1 inp : ℤ) + num_z2_covering_steps inp)

/-- The periodic shift for one axis: `-period*PBCs` if the raw coordinate is
negative, `+period*PBCs` if it is `≥ divs`, `0` otherwise. -/
def shiftOf (raw : ℤ) (divs : ℕ) (period : ℚ) (pbcs : ℤ) : ℚ :=
  if raw < 0 then -period * (pbcs : ℚ)
  else if (divs : ℤ) ≤ raw then period * (pbcs : ℚ)
  else 0

/-- The wrapped cell coordinate `raw % divs` (Python modulo: non-negative for a
positive divisor, which `Int.emod` matches). -/
def wrapIdx (raw : ℤ) (divs : ℕ) : ℕ :=
  (raw % (divs : ℤ)).toNat

/-- The flattened secondary cell index looked up for a raw coordinate triple:
`icell2 = ix2*(num_y2divs*num_z2divs) + iy2*num_z2divs + iz2` with each
component wrapped modulo its division count. -/
def icell2Of (inp : EngineInput) (v : ℤ × ℤ × ℤ) : ℕ :=
  wrapIdx v.1 inp.double_mesh.mesh2.num_xdivs *
      (inp.double_mesh.mesh2.num_ydivs * inp.double_mesh.mesh2.num_zdivs) +
    wrapIdx v.2.1 inp.double_mesh.mesh2.num_ydivs *
      inp.double_mesh.mesh2.num_zdivs +
    wrapIdx v.2.2 inp.double_mesh.mesh2.num_zdivs

/-- All raw secondary-cell coordinate triples visited for primary cell
`icell1` (the three nested `for nonPBC_i.2 in range(leftmost, rightmost)`
loops). -/
def visits (inp : EngineInput) (icell1 : ℕ) : List (ℤ × ℤ × ℤ) :=
  let c := cellCoord1 inp icell1
  (xWindow inp c.1).flatMap (fun cx =>
    (yWindow inp c.2.1).flatMap (fun cy =>
      (zWindow inp c.2.2).map (fun cz => (cx, cy, cz))))

/-- The half-open slice of sorted point indices `[tbl[c], tbl[c+1])` belonging
to cell `c` according to an offset table. -/
def cellSlice (tbl : List ℕ) (c : ℕ) : List ℕ :=
  let a := tbl.getD c 0
  let b := tbl.getD (c + 1) 0
  (List.range (b - a)).map (fun t => a + t)

/-- The squared projected separation for sorted primary index `gi` and sorted
secondary index `gj`, with the primary coordinates already shifted:
`dx = (x1[gi] - x2shift) - x2[gj]`, `dy` likewise, `dxy_sq = dx*dx + dy*dy`. -/
def dxy_sq (inp : EngineInput) (sx sy : ℚ) (gi gj : ℕ) : ℚ :=
  let dx := (x1 inp).getD gi 0 - sx - (x2 inp).getD gj 0
  let dy := (y1 inp).getD gi 0 - sy - (y2 inp).getD gj 0
  dx * dx + dy * dy

/-- The squared line-of-sight separation:
`dz = (z1[gi] - z2shift) - z2[gj]`, `dz_sq = dz*dz`. -/
def dz_sq (inp : EngineInput) (sz : ℚ) (gi gj : ℕ) : ℚ :=
  let dz := (z1 inp).getD gi 0 - sz - (z2 inp).getD gj 0
  dz * dz

/-- The innermost pair test of the scanner:
`(dxy_sq < rp_max_squared[gi]) & (dz_sq < pi_max_squared[gi]) & (weight == 1)
& ((dz_sq + dxy_sq) > 0.0)`. -/
def qualifies (inp : EngineInput) (wfunc : CondFun) (sx sy sz : ℚ) (gi gj : ℕ) : Bool :=
  decide (dxy_sq inp sx sy gi gj < (rp_max_squared inp).getD gi 0) &&
    decide (dz_sq inp sz gi gj < (pi_max_squared inp).getD gi 0) &&
    wfunc ((weights1 inp).getD gi []) ((weights2 inp).getD gj []) &&
    decide (0 < dz_sq inp sz gi gj + dxy_sq inp sx sy gi gj)

/-- The inner `for j in range(0, Nj)` loop with its `break`: scan secondary
indices in order and stop at the first qualifying one. -/
def scanSecondaries (q : ℕ → Bool) : List ℕ → Bool
  | [] => false
  | j :: js => if q j then true else scanSecondaries q js

/-- Scan of all candidate secondary cells for one primary point: for every
visited raw coordinate triple, compute the three per-axis shifts, look up the
wrapped flattened secondary cell, and scan its slice of secondary points. -/
def scanCell2s (inp : EngineInput) (wfunc : CondFun) (icell1 gi : ℕ) : Bool :=
  (visits inp icell1).any (fun v =>
    let sx := shiftOf v.1 inp.double_mesh.mesh2.num_xdivs
      inp.double_mesh.xperiod inp.double_mesh.PBCs
    let sy := shiftOf v.2.1 inp.double_mesh.mesh2.num_ydivs
      inp.double_mesh.yperiod inp.double_mesh.PBCs
    let sz := shiftOf v.2.2 inp.double_mesh.mesh2.num_zdivs
      inp.double_mesh.zperiod inp.double_mesh.PBCs
    scanSecondaries (fun gj => qualifies inp wfunc sx sy sz gi gj)
      (cellSlice inp.double_mesh.mesh2.cell_id_indices (icell2Of inp v)))

/-- The final value of `has_neighbor[p]` for sorted primary index `p` after the
loop `for icell1 in range(first_cell1_element, last_cell1_element)`: the flag
starts at `0` and is set (monotonically) exactly when `p` lies in the slice of
a scanned primary cell and some visited secondary cell contains a qualifying
point. -/
def hasNeighbor (inp : EngineInput) (wfunc : CondFun)
    (first_cell1_element last_cell1_element : ℕ) (p : ℕ) : Bool :=
  (List.range' first_cell1_element (last_cell1_element - first_cell1_element)).any
    (fun icell1 =>
      decide (inp.double_mesh.mesh1.cell_id_indices.getD icell1 0 ≤ p) &&
        decide (p < inp.double_mesh.mesh1.cell_id_indices.getD (icell1 + 1) 0) &&
        scanCell2s inp wfunc icell1 p)

/-- The original indices of the isolated points:
`is_isolated = (new_has_neighbor == 0)` (a boolean mask in sorted order)
followed by the numpy mask indexing `idx_sorted[is_isolated]`. -/
def isolatedOriginalIndices (inp : EngineInput) (wfunc : CondFun)
    (first_cell1_element last_cell1_element : ℕ) : List ℕ :=
  ((List.range inp.x1in.length).filter
      (fun p => !hasNeighbor inp wfunc first_cell1_element last_cell1_element p)).map
    (fun p => inp.double_mesh.mesh1.idx_sorted.getD p 0)

/-- Result assembly: `new_is_isolated = np.zeros(Npts1)` followed by
`new_is_isolated[is_isolated] = 1`, i.e. entry `k` is `1` exactly when `k`
occurs among the isolated original indices. -/
def assembleOutput (inp : EngineInput) (wfunc : CondFun)
    (first_cell1_element last_cell1_element : ℕ) : List ℕ :=
  (List.range inp.x1in.length).map
    (fun k =>
      if k ∈ isolatedOriginalIndices inp wfunc first_cell1_element last_cell1_element
      then 1 else 0)

/-- The engine.  `cell1_tuple` is passed as the two explicit arguments
`first_cell1_element` and `last_cell1_element`.  The conditional function is
resolved first (line 84 of the source, before any cell iteration); an unknown
id raises `ValueError`, modelled as `none`. -/
def marked_cylindrical_isolation_engine (inp : EngineInput)
    (first_cell1_element last_cell1_element : ℕ) : Option (List ℕ) :=
  match return_conditional_function inp.weight_func_idin with
  | none => none
  | some wfunc => some (assembleOutput inp wfunc first_cell1_element last_cell1_element)

/-! ### Concrete instances used by witnesses and counterexamples -/

/-- A 1×1×1 mesh holding a single point. -/
def meshOne : SingleMesh :=
  { idx_sorted := [0], cell_id_indices := [0, 1],
    num_xdivs := 1, num_ydivs := 1, num_zdivs := 1,
    xcell_size := 1, ycell_size := 1, zcell_size := 1 }

/-- A double mesh over the unit box with periodic boundaries disabled and
search lengths `1/2` on every axis (so one covering step per axis). -/
def dmEx : DoubleMesh :=
  { mesh1 := meshOne, mesh2 := meshOne,
    xperiod := 1, yperiod := 1, zperiod := 1,
    search_xlength := 1/2, search_ylength := 1/2, search_zlength := 1/2,
    PBCs := 0 }

/-- One primary point at the origin, one secondary point at `(1/4, 0, 0)`,
trivial predicate, search cylinder of radius and half-length `1/2`: the
primary point has a neighbor. -/
def inpEx : EngineInput :=
  { double_mesh := dmEx,
    x1in := [0], y1in := [0], z1in := [0],
    x2in := [1/4], y2in := [0], z2in := [0],
    weights1in := [[1]], weights2in := [[1]],
    weight_func_idin := 0,
    rp_max := [1/2], pi_max := [1/2] }

/-- Same geometry but with the secondary point exactly on the cylinder
boundary: `dxy_sq = 1/4 = rp_max_squared`. -/
def inpExBoundary : EngineInput :=
  { inpEx with x2in := [1/2] }

/-- A double mesh whose secondary division count (3 on the x-axis) is not a
multiple of the primary division count (2 on the x-axis). -/
def dmNonMultiple : DoubleMesh :=
  { mesh1 := { idx_sorted := [0], cell_id_indices := [0, 1, 1],
               num_xdivs := 2, num_ydivs := 1, num_zdivs := 1,
               xcell_size := 1/2, ycell_size := 1, zcell_size := 1 },
    mesh2 := { idx_sorted := [0], cell_id_indices := [0, 1, 1, 1],
               num_xdivs := 3, num_ydivs := 1, num_zdivs := 1,
               xcell_size := 1/3, ycell_size := 1, zcell_size := 1 },
    xperiod := 1, yperiod := 1, zperiod := 1,
    search_xlength := 1/4, search_ylength := 1/4, search_zlength := 1/4,
    PBCs := 1 }

/-- An invocation over the non-multiple grid pairing. -/
def inpNonMultiple : EngineInput :=
  { double_mesh := dmNonMultiple,
    x1in := [0], y1in := [0], z1in := [0],
    x2in := [1/2], y2in := [0], z2in := [0],
    weights1in := [[1]], weights2in := [[1]],
    weight_func_idin := 0,
    rp_max := [1/4], pi_max := [1/4] }

/-- A double mesh with a 1-division primary x-axis over a 2-division secondary
x-axis (ratio 2) and one covering step, used to exhibit the half-open scan
window. -/
def dmWindow : DoubleMesh :=
  { mesh1 := meshOne,
    mesh2 := { idx_sorted := [0], cell_id_indices := [0, 1, 1],
               num_xdivs := 2, num_ydivs := 1, num_zdivs := 1,
               xcell_size := 1/2, ycell_size := 1, zcell_size := 1 },
    xperiod := 1, yperiod := 1, zperiod := 1,
    search_xlength := 1/2, search_ylength := 1/2, search_zlength := 1/2,
    PBCs := 1 }

/-- An invocation over `dmWindow`. -/
def inpWindow : EngineInput :=
  { double_mesh := dmWindow,
    x1in := [0], y1in := [0], z1in := [0],
    x2in := [1/4], y2in := [0], z2in := [0],
    weights1in := [[1]], weights2in := [[1]],
    weight_func_idin := 0,
    rp_max := [1/2], pi_max := [1/2] }

/-- Input `inpEx` with an unrecognized conditional-function id. -/
def inpBadId : EngineInput :=
  { inpEx with weight_func_idin := 7 }

/-! ### Helper lemmas -/

/-- The inner loop with `break` computes the same boolean as `List.any`. -/
lemma scanSecondaries_eq_any (q : ℕ → Bool) (l : List ℕ) :
    scanSecondaries q l = l.any q := by
  induction l with
  | nil => rfl
  | cons j js ih =>
    unfold scanSecondaries
    rw [List.any_cons, ih]
    by_cases h : q j = true <;> simp [h]

/-- Membership in the integer range `[a, b)`. -/
lemma mem_intRange {a b c : ℤ} : c ∈ intRange a b ↔ a ≤ c ∧ c < b := by
  simp only [intRange, List.mem_map, List.mem_range]
  constructor
  · rintro ⟨k, hk, rfl⟩
    omega
  · intro h
    exact ⟨(c - a).toNat, by omega, by omega⟩

/-- The shift vanishes in every branch when the periodicity flag is `0`. -/
lemma shiftOf_pbcs_zero (raw : ℤ) (divs : ℕ) (period : ℚ) :
    shiftOf raw divs period 0 = 0 := by
  simp [shiftOf]

/-- Reading a mapped range at an in-bounds position. -/
lemma getD_map_range {α : Type} (g : ℕ → α) {n k : ℕ} (d : α) (h : k < n) :
    ((List.range n).map g).getD k d = g k := by
  have hlen : k < ((List.range n).map g).length := by simpa using h
  rw [List.getD_eq_getElem _ _ hlen]
  simp

/-- Characterization of the original indices selected as isolated. -/
lemma mem_isolatedOriginalIndices (inp : EngineInput) (f : CondFun) (a b k : ℕ) :
    k ∈ isolatedOriginalIndices inp f a b ↔
      ∃ p, p < inp.x1in.length ∧ hasNeighbor inp f a b p = false ∧
        inp.double_mesh.mesh1.idx_sorted.getD p 0 = k := by
  simp only [isolatedOriginalIndices, List.mem_map, List.mem_filter, List.mem_range,
    Bool.not_eq_eq_eq_not, Bool.not_true]
  constructor
  · rintro ⟨p, ⟨hp, hn⟩, hk⟩
    exact ⟨p, hp, hn, hk⟩
  · rintro ⟨p, hp, hn, hk⟩
    exact ⟨p, ⟨hp, hn⟩, hk⟩

/-- The assembled output has one entry per original primary point. -/
lemma assembleOutput_length (inp : EngineInput) (f : CondFun) (a b : ℕ) :
    (assembleOutput inp f a b).length = inp.x1in.length := by
  simp [assembleOutput]

/-- Reading the assembled output at an in-bounds original index. -/
lemma assembleOutput_getD (inp : EngineInput) (f : CondFun) (a b k d : ℕ)
    (h : k < inp.x1in.length) :
    (assembleOutput inp f a b).getD k d =
      if k ∈ isolatedOriginalIndices inp f a b then 1 else 0 := by
  unfold assembleOutput
  exact getD_map_range _ _ h

/-- The engine succeeds exactly by assembling the output whenever the
conditional-function id is recognized. -/
lemma engine_eq_assemble (inp : EngineInput) (a b : ℕ) (f : CondFun)
    (hf : return_conditional_function inp.weight_func_idin = some f) :
    marked_cylindrical_isolation_engine inp a b = some (assembleOutput inp f a b) := by
  unfold marked_cylindrical_isolation_engine
  rw [hf]

/-- Positions of a duplicate-free list are determined by their entries. -/
lemma getD_inj_of_nodup {l : List ℕ} (hnd : l.Nodup) {p q : ℕ}
    (hp : p < l.length) (hq : q < l.length) (h : l.getD p 0 = l.getD q 0) : p = q := by
  rw [List.getD_eq_getElem l 0 hp, List.getD_eq_getElem l 0 hq] at h
  exact (List.Nodup.getElem_inj_iff hnd).mp h

/-- A duplicate-free list of `N` naturals all below `N` attains every value
below `N`. -/
lemma getD_surj_of_nodup {l : List ℕ} {N : ℕ} (hlen : l.length = N) (hnd : l.Nodup)
    (hlt : ∀ x ∈ l, x < N) {k : ℕ} (hk : k < N) :
    ∃ p, p < N ∧ l.getD p 0 = k := by
  have hsub : l ⊆ List.range N := fun x hx => List.mem_range.mpr (hlt x hx)
  have hsp : l.Subperm (List.range N) := List.subperm_of_subset hnd hsub
  have hperm : l.Perm (List.range N) := hsp.perm_of_length_le (by simp [hlen])
  have hmem : k ∈ l := hperm.mem_iff.mpr (List.mem_range.mpr hk)
  obtain ⟨p, hp, hval⟩ := List.mem_iff_getElem.mp hmem
  refine ⟨p, by omega, ?_⟩
  rw [List.getD_eq_getElem l 0 hp]
  exact hval

/-- A sorted-order index below the list length maps to an original index that
occurs in the permutation list. -/
lemma getD_mem_of_lt {l : List ℕ} {p : ℕ} (hp : p < l.length) : l.getD p 0 ∈ l := by
  rw [List.getD_eq_getElem l 0 hp]
  exact List.getElem_mem hp

/-! ### Claim theorems -/

/-- Claim C1: for a candidate primary/secondary pair examined by the scanner
(the primary coordinates already shifted by the secondary cell's periodic
shift), the pair counts as a neighbor iff all four conditions hold:
`dxy_sq < rp_max_sq[i]` strictly, `dz_sq < pi_max_sq[i]` strictly, the
selected predicate on the weight rows is true, and `dxy_sq + dz_sq > 0`; a
secondary point lying exactly on the cylinder boundary never counts; and on
the first qualifying secondary point the scan marks the point and stops
examining the remaining secondary points of that cell (the result does not
depend on them). -/
theorem C1_neighbor_condition (inp : EngineInput) (f : CondFun) (sx sy sz : ℚ)
    (gi gj : ℕ) :
    (qualifies inp f sx sy sz gi gj = true ↔
      (dxy_sq inp sx sy gi gj < (rp_max_squared inp).getD gi 0 ∧
        dz_sq inp sz gi gj < (pi_max_squared inp).getD gi 0 ∧
        f ((weights1 inp).getD gi []) ((weights2 inp).getD gj []) = true ∧
        0 < dxy_sq inp sx sy gi gj + dz_sq inp sz gi gj)) ∧
    (dxy_sq inp sx sy gi gj = (rp_max_squared inp).getD gi 0 →
      qualifies inp f sx sy sz gi gj = false) ∧
    (dz_sq inp sz gi gj = (pi_max_squared inp).getD gi 0 →
      qualifies inp f sx sy sz gi gj = false) ∧
    (∀ js js' : List ℕ, qualifies inp f sx sy sz gi gj = true →
      scanSecondaries (qualifies inp f sx sy sz gi) (gj :: js) = true ∧
      scanSecondaries (qualifies inp f sx sy sz gi) (gj :: js) =
        scanSecondaries (qualifies inp f sx sy sz gi) (gj :: js')) := by
  refine ⟨?_, ?_, ?_, ?_⟩
  · unfold qualifies
    simp only [Bool.and_eq_true, decide_eq_true_eq]
    constructor
    · rintro ⟨⟨⟨h1, h2⟩, h3⟩, h4⟩
      exact ⟨h1, h2, h3, by linarith⟩
    · rintro ⟨h1, h2, h3, h4⟩
      exact ⟨⟨⟨h1, h2⟩, h3⟩, by linarith⟩
  · intro h
    unfold qualifies
    rw [h]
    simp
  · intro h
    unfold qualifies
    rw [h]
    simp
  · intro js js' h
    constructor <;> · unfold scanSecondaries; rw [h]; simp

/-- The single pair of `inpEx` satisfies all four neighbor conditions. -/
lemma inpEx_conditions :
    dxy_sq inpEx 0 0 0 0 < (rp_max_squared inpEx).getD 0 0 ∧
      dz_sq inpEx 0 0 0 < (pi_max_squared inpEx).getD 0 0 ∧
      Halotools.trivial ((weights1 inpEx).getD 0 []) ((weights2 inpEx).getD 0 []) = true ∧
      0 < dxy_sq inpEx 0 0 0 0 + dz_sq inpEx 0 0 0 := by
  unfold dxy_sq dz_sq
  norm_num [x1, y1, z1, x2, y2, z2, rp_max_squared, pi_max_squared, weights1,
    weights2, inpEx, dmEx, meshOne, Halotools.trivial]

/-- In `inpExBoundary` the secondary point sits exactly on the cylinder
boundary. -/
lemma inpExBoundary_on_boundary :
    dxy_sq inpExBoundary 0 0 0 0 = (rp_max_squared inpExBoundary).getD 0 0 := by
  unfold dxy_sq
  norm_num [x1, y1, x2, y2, rp_max_squared, inpExBoundary, inpEx, dmEx, meshOne]

/-- Claim C1 witness: in `inpEx` the single pair qualifies; in
`inpExBoundary` the secondary point sits exactly on the cylinder boundary
(`dxy_sq = rp_max_squared`) and does not qualify; and the scan of a cell
stops at the first qualifying point. -/
theorem C1_witness :
    qualifies inpEx Halotools.trivial 0 0 0 0 0 = true ∧
    qualifies inpExBoundary Halotools.trivial 0 0 0 0 0 = false ∧
    scanSecondaries (qualifies inpEx Halotools.trivial 0 0 0 0) (0 :: [5]) =
      scanSecondaries (qualifies inpEx Halotools.trivial 0 0 0 0) (0 :: []) :=
  ⟨(C1_neighbor_condition inpEx Halotools.trivial 0 0 0 0 0).1.mpr inpEx_conditions,
   (C1_neighbor_condition inpExBoundary Halotools.trivial 0 0 0 0 0).2.1
     inpExBoundary_on_boundary,
   ((C1_neighbor_condition inpEx Halotools.trivial 0 0 0 0 0).2.2.2 [5] []
     ((C1_neighbor_condition inpEx Halotools.trivial 0 0 0 0 0).1.mpr
       inpEx_conditions)).2⟩

/-- Claim C4: the dispatch table maps each recognized code to the tabulated
predicate on the first weight component: 0 ↦ always true, 1 ↦ `>`, 2 ↦ `<`,
3 ↦ `==`, 4 ↦ `!=`, 5 ↦ `>=`, 6 ↦ `<=`. -/
theorem C4_predicate_table :
    return_conditional_function 0 = some Halotools.trivial ∧
    return_conditional_function 1 = some gt_cond ∧
    return_conditional_function 2 = some lt_cond ∧
    return_conditional_function 3 = some eq_cond ∧
    return_conditional_function 4 = some neq_cond ∧
    return_conditional_function 5 = some tg_cond ∧
    return_conditional_function 6 = some lg_cond ∧
    (∀ w1 w2 : List ℚ, Halotools.trivial w1 w2 = true) ∧
    (∀ w1 w2 : List ℚ, gt_cond w1 w2 = true ↔ w1.getD 0 0 > w2.getD 0 0) ∧
    (∀ w1 w2 : List ℚ, lt_cond w1 w2 = true ↔ w1.getD 0 0 < w2.getD 0 0) ∧
    (∀ w1 w2 : List ℚ, eq_cond w1 w2 = true ↔ w1.getD 0 0 = w2.getD 0 0) ∧
    (∀ w1 w2 : List ℚ, neq_cond w1 w2 = true ↔ w1.getD 0 0 ≠ w2.getD 0 0) ∧
    (∀ w1 w2 : List ℚ, tg_cond w1 w2 = true ↔ w1.getD 0 0 ≥ w2.getD 0 0) ∧
    (∀ w1 w2 : List ℚ, lg_cond w1 w2 = true ↔ w1.getD 0 0 ≤ w2.getD 0 0) := by
  refine ⟨rfl, rfl, rfl, rfl, rfl, rfl, rfl, ?_, ?_, ?_, ?_, ?_, ?_, ?_⟩ <;>
    intro w1 w2 <;>
    simp [Halotools.trivial, gt_cond, lt_cond, eq_cond, neq_cond, tg_cond, lg_cond]

/-- Claim C5: every conditional-function id outside `{0,...,6}` is rejected by
the dispatch, and the engine returns no result array exactly when the dispatch
rejects its id (the dispatch is consulted before any cell iteration). -/
theorem C5_unknown_code_fails (inp : EngineInput) (a b : ℕ) :
    (∀ id : ℤ, id ≠ 0 → id ≠ 1 → id ≠ 2 → id ≠ 3 → id ≠ 4 → id ≠ 5 → id ≠ 6 →
      return_conditional_function id = none) ∧
    (marked_cylindrical_isolation_engine inp a b = none ↔
      return_conditional_function inp.weight_func_idin = none) := by
  constructor
  · intro id h0 h1 h2 h3 h4 h5 h6
    unfold return_conditional_function
    rw [if_neg h0, if_neg h1, if_neg h2, if_neg h3, if_neg h4, if_neg h5, if_neg h6]
  · unfold marked_cylindrical_isolation_engine
    cases h : return_conditional_function inp.weight_func_idin <;> simp

/-- Claim C5 witness: with id 7 the engine of `inpBadId` fails and returns no
result array. -/
theorem C5_witness : marked_cylindrical_isolation_engine inpBadId 0 1 = none :=
  (C5_unknown_code_fails inpBadId 0 1).2.mpr
    ((C5_unknown_code_fails inpBadId 0 1).1 7 (by decide) (by decide) (by decide)
      (by decide) (by decide) (by decide) (by decide))

/-- Claim C7: the periodic shift for a raw secondary cell coordinate is
`-period` when the coordinate is negative, `+period` when it is at least the
division count and `0` otherwise, each multiplied by the periodicity flag (a
flag of `0` disables all shifting); the cell looked up is the raw coordinate
reduced modulo the division count, flattened as
`ix*(ydivs*zdivs) + iy*zdivs + iz`; and subtracting the shift from the primary
coordinate is algebraically the same as adding it to the secondary
coordinate. -/
theorem C7_shift_and_lookup (inp : EngineInput) (raw : ℤ) (divs : ℕ) (period : ℚ)
    (pbcs : ℤ) (v : ℤ × ℤ × ℤ) (sx sy sz : ℚ) (gi gj : ℕ) :
    (raw < 0 → shiftOf raw divs period pbcs = -period * (pbcs : ℚ)) ∧
    ((divs : ℤ) ≤ raw → shiftOf raw divs period pbcs = period * (pbcs : ℚ)) ∧
    (0 ≤ raw → raw < (divs : ℤ) → shiftOf raw divs period pbcs = 0) ∧
    (shiftOf raw divs period 0 = 0) ∧
    (0 < divs → (wrapIdx raw divs : ℤ) = raw % (divs : ℤ)) ∧
    (icell2Of inp v =
      wrapIdx v.1 inp.double_mesh.mesh2.num_xdivs *
          (inp.double_mesh.mesh2.num_ydivs * inp.double_mesh.mesh2.num_zdivs) +
        wrapIdx v.2.1 inp.double_mesh.mesh2.num_ydivs *
          inp.double_mesh.mesh2.num_zdivs +
        wrapIdx v.2.2 inp.double_mesh.mesh2.num_zdivs) ∧
    (dxy_sq inp sx sy gi gj =
      ((x1 inp).getD gi 0 - ((x2 inp).getD gj 0 + sx)) *
          ((x1 inp).getD gi 0 - ((x2 inp).getD gj 0 + sx)) +
        ((y1 inp).getD gi 0 - ((y2 inp).getD gj 0 + sy)) *
          ((y1 inp).getD gi 0 - ((y2 inp).getD gj 0 + sy))) ∧
    (dz_sq inp sz gi gj =
      ((z1 inp).getD gi 0 - ((z2 inp).getD gj 0 + sz)) *
        ((z1 inp).getD gi 0 - ((z2 inp).getD gj 0 + sz))) := by
  refine ⟨?_, ?_, ?_, shiftOf_pbcs_zero raw divs period, ?_, rfl, ?_, ?_⟩
  · intro h
    unfold shiftOf
    rw [if_pos h]
  · intro h
    unfold shiftOf
    rw [if_neg (by omega), if_pos h]
  · intro h1 h2
    unfold shiftOf
    rw [if_neg (by omega), if_neg (by omega)]
  · intro hd
    unfold wrapIdx
    exact Int.toNat_of_nonneg (Int.emod_nonneg raw (by exact_mod_cast hd.ne'))
  · unfold dxy_sq
    ring
  · unfold dz_sq
    ring

/-- Claim C7 witness: concrete shifts and wraps — a raw coordinate of `-1`
with divisor 2 shifts by `-period` and wraps to cell 1, a raw coordinate of
`2` shifts by `+period`, and an in-range coordinate does not shift. -/
theorem C7_witness :
    shiftOf (-1) 2 5 1 = -5 * ((1 : ℤ) : ℚ) ∧
    shiftOf 2 2 5 1 = 5 * ((1 : ℤ) : ℚ) ∧
    shiftOf 1 2 5 1 = 0 ∧
    (wrapIdx (-1) 2 : ℤ) = (-1) % (2 : ℤ) :=
  ⟨(C7_shift_and_lookup inpEx (-1) 2 5 1 (0, 0, 0) 0 0 0 0 0).1 (by decide),
   (C7_shift_and_lookup inpEx 2 2 5 1 (0, 0, 0) 0 0 0 0 0).2.1 (by decide),
   (C7_shift_and_lookup inpEx 1 2 5 1 (0, 0, 0) 0 0 0 0 0).2.2.1 (by decide) (by decide),
   (C7_shift_and_lookup inpEx (-1) 2 5 1 (0, 0, 0) 0 0 0 0 0).2.2.2.2.1 (by decide)⟩

/-- The x-axis covering-step count of `inpWindow` evaluates to `1`. -/
lemma inpWindow_cov_x : num_x2_covering_steps inpWindow = 1 := by
  show ⌈((1 : ℚ)/2) / ((1 : ℚ)/2)⌉ = 1
  rw [Int.ceil_eq_iff]
  norm_num

/-- Claim C3 fails as stated: for `inpWindow` (x-axis ratio 2, one covering
step) the raw x-coordinates scanned for the primary cell `(0,0,0)` are
`[-1, 0, 1, 2]`; the claimed inclusive right endpoint
`(0+1)*ratio + covering_steps = 3` is never scanned — the window is half-open
on the right. -/
theorem C3_counterexample :
    xWindow inpWindow 0 = [-1, 0, 1, 2] ∧
    ((0 + 1 : ℤ) * (num_x2_per_x1 inpWindow : ℤ) + num_x2_covering_steps inpWindow)
      ∉ xWindow inpWindow 0 := by
  have h : xWindow inpWindow 0 = [-1, 0, 1, 2] := by
    unfold xWindow
    rw [inpWindow_cov_x]
    decide
  refine ⟨h, ?_⟩
  rw [h, inpWindow_cov_x]
  decide

/-- Claim C3 (amended): for every primary cell coordinate, the set of raw
(unwrapped) secondary cell coordinates scanned on each axis is exactly the
half-open range `[leftmost, rightmost)` — `leftmost` through `rightmost - 1`
inclusive — with `leftmost = ix1*ratio - covering_steps` and
`rightmost = (ix1+1)*ratio + covering_steps`, where `ratio` is the per-axis
division ratio and `covering_steps = ceil(max_search_extent / cell_size)` by
definition of `num_x2_covering_steps` and its analogues. -/
theorem C3_scan_window (inp : EngineInput) (ix1 iy1 iz1 : ℕ) (rx ry rz : ℕ) (c : ℤ)
    (hx : 0 < inp.double_mesh.mesh1.num_xdivs)
    (hmx : inp.double_mesh.mesh1.num_xdivs * rx = inp.double_mesh.mesh2.num_xdivs)
    (hy : 0 < inp.double_mesh.mesh1.num_ydivs)
    (hmy : inp.double_mesh.mesh1.num_ydivs * ry = inp.double_mesh.mesh2.num_ydivs)
    (hz : 0 < inp.double_mesh.mesh1.num_zdivs)
    (hmz : inp.double_mesh.mesh1.num_zdivs * rz = inp.double_mesh.mesh2.num_zdivs) :
    (c ∈ xWindow inp ix1 ↔
      (ix1 : ℤ) * (rx : ℤ) - num_x2_covering_steps inp ≤ c ∧
        c < ((ix1 : ℤ) + 1) * (rx : ℤ) + num_x2_covering_steps inp) ∧
    (c ∈ yWindow inp iy1 ↔
      (iy1 : ℤ) * (ry : ℤ) - num_y2_covering_steps inp ≤ c ∧
        c < ((iy1 : ℤ) + 1) * (ry : ℤ) + num_y2_covering_steps inp) ∧
    (c ∈ zWindow inp iz1 ↔
      (iz1 : ℤ) * (rz : ℤ) - num_z2_covering_steps inp ≤ c ∧
        c < ((iz1 : ℤ) + 1) * (rz : ℤ) + num_z2_covering_steps inp) := by
  have ex : num_x2_per_x1 inp = rx := by
    unfold num_x2_per_x1
    rw [← hmx]
    exact Nat.mul_div_cancel_left rx hx
  have ey : num_y2_per_y1 inp = ry := by
    unfold num_y2_per_y1
    rw [← hmy]
    exact Nat.mul_div_cancel_left ry hy
  have ez : num_z2_per_z1 inp = rz := by
    unfold num_z2_per_z1
    rw [← hmz]
    exact Nat.mul_div_cancel_left rz hz
  refine ⟨?_, ?_, ?_⟩
  · unfold xWindow
    rw [ex]
    exact mem_intRange
  · unfold yWindow
    rw [ey]
    exact mem_intRange
  · unfold zWindow
    rw [ez]
    exact mem_intRange

/-- Claim C3 witness: coordinate `0` lies in the scanned x-window of
`inpWindow` for the primary cell with `ix1 = 0`. -/
theorem C3_witness : (0 : ℤ) ∈ xWindow inpWindow 0 :=
  ((C3_scan_window inpWindow 0 0 0 2 1 1 0 (by decide) (by decide) (by decide)
      (by decide) (by decide) (by decide)).1).mpr
    (by rw [inpWindow_cov_x]; decide)

/-- Claim C6 fails as stated: `inpNonMultiple` has a secondary x-division
count (3) that is not an integer multiple of the primary x-division count
(2), yet the engine performs no validation and returns a result array rather
than failing. -/
theorem C6_counterexample :
    inpNonMultiple.double_mesh.mesh2.num_xdivs %
        inpNonMultiple.double_mesh.mesh1.num_xdivs ≠ 0 ∧
    (marked_cylindrical_isolation_engine inpNonMultiple 0 2).isSome = true := by
  refine ⟨by decide, ?_⟩
  rw [engine_eq_assemble inpNonMultiple 0 2 Halotools.trivial rfl]
  rfl

/-- Claim C6 (amended): the engine performs no divisibility validation of the
grid pairing; it computes the per-axis cell ratio by floor division and, for
any recognized conditional-function id, proceeds to return a result array
regardless of whether the secondary division counts are integer multiples of
the primary ones.  Rejecting malformed pairings is the responsibility of the
external mesh constructor. -/
theorem C6_no_divisibility_validation (inp : EngineInput) (a b : ℕ) (f : CondFun)
    (hf : return_conditional_function inp.weight_func_idin = some f) :
    num_x2_per_x1 inp =
      inp.double_mesh.mesh2.num_xdivs / inp.double_mesh.mesh1.num_xdivs ∧
    num_y2_per_y1 inp =
      inp.double_mesh.mesh2.num_ydivs / inp.double_mesh.mesh1.num_ydivs ∧
    num_z2_per_z1 inp =
      inp.double_mesh.mesh2.num_zdivs / inp.double_mesh.mesh1.num_zdivs ∧
    marked_cylindrical_isolation_engine inp a b = some (assembleOutput inp f a b) :=
  ⟨rfl, rfl, rfl, engine_eq_assemble inp a b f hf⟩

/-- Claim C6 witness: the engine runs to completion on the non-multiple grid
pairing. -/
theorem C6_witness :
    num_x2_per_x1 inpNonMultiple =
      inpNonMultiple.double_mesh.mesh2.num_xdivs /
        inpNonMultiple.double_mesh.mesh1.num_xdivs ∧
    num_y2_per_y1 inpNonMultiple =
      inpNonMultiple.double_mesh.mesh2.num_ydivs /
        inpNonMultiple.double_mesh.mesh1.num_ydivs ∧
    num_z2_per_z1 inpNonMultiple =
      inpNonMultiple.double_mesh.mesh2.num_zdivs /
        inpNonMultiple.double_mesh.mesh1.num_zdivs ∧
    marked_cylindrical_isolation_engine inpNonMultiple 0 2 =
      some (assembleOutput inpNonMultiple Halotools.trivial 0 2) :=
  C6_no_divisibility_validation inpNonMultiple 0 2 Halotools.trivial rfl

/-- Claim C2: for every valid invocation the returned array has length
`len(x1in)`, every entry is `0` or `1`, and — provided the sort permutation
is a genuine permutation of the original indices — the entry at the original
index of sorted point `p` is `1` exactly when no qualifying neighbor was
recorded for `p` during the scan, and `0` otherwise. -/
theorem C2_output_alignment (inp : EngineInput) (a b : ℕ) (f : CondFun) (res : List ℕ)
    (hf : return_conditional_function inp.weight_func_idin = some f)
    (hres : marked_cylindrical_isolation_engine inp a b = some res)
    (hlen : inp.double_mesh.mesh1.idx_sorted.length = inp.x1in.length)
    (hnd : inp.double_mesh.mesh1.idx_sorted.Nodup)
    (hlt : ∀ x ∈ inp.double_mesh.mesh1.idx_sorted, x < inp.x1in.length) :
    res.length = inp.x1in.length ∧
    (∀ u ∈ res, u = 0 ∨ u = 1) ∧
    (∀ p, p < inp.x1in.length →
      res.getD (inp.double_mesh.mesh1.idx_sorted.getD p 0) 2 =
        if hasNeighbor inp f a b p = true then 0 else 1) := by
  have hres2 : res = assembleOutput inp f a b := by
    have h := engine_eq_assemble inp a b f hf
    rw [hres] at h
    exact Option.some.inj h
  subst hres2
  refine ⟨assembleOutput_length inp f a b, ?_, ?_⟩
  · intro u hu
    unfold assembleOutput at hu
    rw [List.mem_map] at hu
    obtain ⟨k, _, hk⟩ := hu
    by_cases h : k ∈ isolatedOriginalIndices inp f a b
    · right
      rw [← hk, if_pos h]
    · left
      rw [← hk, if_neg h]
  · intro p hp
    have hplen : p < inp.double_mesh.mesh1.idx_sorted.length := by
      rw [hlen]
      exact hp
    have hk : inp.double_mesh.mesh1.idx_sorted.getD p 0 < inp.x1in.length :=
      hlt _ (getD_mem_of_lt hplen)
    rw [assembleOutput_getD inp f a b _ 2 hk]
    by_cases h : hasNeighbor inp f a b p = true
    · have hnot : inp.double_mesh.mesh1.idx_sorted.getD p 0 ∉
          isolatedOriginalIndices inp f a b := by
        intro hmem
        obtain ⟨q, hq, hqn, hqk⟩ := (mem_isolatedOriginalIndices inp f a b _).mp hmem
        have hqp : q = p := getD_inj_of_nodup hnd (by rw [hlen]; exact hq) hplen hqk
        rw [hqp, h] at hqn
        exact Bool.noConfusion hqn
      rw [if_neg hnot, if_pos h]
    · have hfalse : hasNeighbor inp f a b p = false := by
        cases hh : hasNeighbor inp f a b p
        · rfl
        · exact absurd hh h
      have hmem : inp.double_mesh.mesh1.idx_sorted.getD p 0 ∈
          isolatedOriginalIndices inp f a b :=
        (mem_isolatedOriginalIndices inp f a b _).mpr ⟨p, hp, hfalse, rfl⟩
      rw [if_pos hmem, if_neg h]

/-- Claim C2 witness: the engine output of `inpEx` over the full cell range,
read at the original index of sorted point `0`, is the inversion of its
has-neighbor flag. -/
theorem C2_witness :
    (assembleOutput inpEx Halotools.trivial 0 1).getD
        (inpEx.double_mesh.mesh1.idx_sorted.getD 0 0) 2 =
      if hasNeighbor inpEx Halotools.trivial 0 1 0 = true then 0 else 1 :=
  (C2_output_alignment inpEx 0 1 Halotools.trivial
      (assembleOutput inpEx Halotools.trivial 0 1) rfl
      (engine_eq_assemble inpEx 0 1 Halotools.trivial rfl) rfl (by decide)
      (by decide)).2.2 0 (by decide)

/-- Splitting the scanned cell range splits the has-neighbor flag as a
disjunction: the flag over `[a, b)` is the logical OR of the flags over
`[a, m)` and `[m, b)`. -/
lemma hasNeighbor_split (inp : EngineInput) (f : CondFun) {a m b : ℕ}
    (h1 : a ≤ m) (h2 : m ≤ b) (p : ℕ) :
    hasNeighbor inp f a b p =
      (hasNeighbor inp f a m p || hasNeighbor inp f m b p) := by
  unfold hasNeighbor
  have hsplit : List.range' a (b - a) =
      List.range' a (m - a) ++ List.range' m (b - m) := by
    have h := List.range'_append_1 a (m - a) (b - m)
    rw [show a + (m - a) = m by omega] at h
    rw [show (b - m) + (m - a) = b - a by omega] at h
    exact h.symm
  rw [hsplit, List.any_append]

/-- Claim C8: work-range partition consistency — for any split point
`a ≤ m ≤ b`, the has-neighbor flags of the full run over `[a, b)` are the
elementwise OR of the flags of the runs over `[a, m)` and `[m, b)`, and
(for a genuine sort permutation) the returned isolation array of the full run
is the elementwise AND of the two sub-range isolation arrays. -/
theorem C8_partition_consistency (inp : EngineInput) (f : CondFun) (a m b : ℕ)
    (h1 : a ≤ m) (h2 : m ≤ b)
    (hf : return_conditional_function inp.weight_func_idin = some f)
    (hlen : inp.double_mesh.mesh1.idx_sorted.length = inp.x1in.length)
    (hnd : inp.double_mesh.mesh1.idx_sorted.Nodup)
    (resF resA resB : List ℕ)
    (hF : marked_cylindrical_isolation_engine inp a b = some resF)
    (hA : marked_cylindrical_isolation_engine inp a m = some resA)
    (hB : marked_cylindrical_isolation_engine inp m b = some resB) :
    (∀ p, hasNeighbor inp f a b p =
      (hasNeighbor inp f a m p || hasNeighbor inp f m b p)) ∧
    (∀ k, k < inp.x1in.length →
      resF.getD k 0 =
        if resA.getD k 0 = 1 ∧ resB.getD k 0 = 1 then 1 else 0) := by
  have hresF : resF = assembleOutput inp f a b := by
    have h := engine_eq_assemble inp a b f hf
    rw [hF] at h
    exact Option.some.inj h
  have hresA : resA = assembleOutput inp f a m := by
    have h := engine_eq_assemble inp a m f hf
    rw [hA] at h
    exact Option.some.inj h
  have hresB : resB = assembleOutput inp f m b := by
    have h := engine_eq_assemble inp m b f hf
    rw [hB] at h
    exact Option.some.inj h
  subst hresF hresA hresB
  have hiff : ∀ k, k ∈ isolatedOriginalIndices inp f a b ↔
      (k ∈ isolatedOriginalIndices inp f a m ∧
        k ∈ isolatedOriginalIndices inp f m b) := by
    intro k
    constructor
    · intro hkF
      obtain ⟨p, hp, hpn, hpk⟩ := (mem_isolatedOriginalIndices inp f a b k).mp hkF
      rw [hasNeighbor_split inp f h1 h2 p] at hpn
      obtain ⟨hpA, hpB⟩ := Bool.or_eq_false_iff.mp hpn
      exact ⟨(mem_isolatedOriginalIndices inp f a m k).mpr ⟨p, hp, hpA, hpk⟩,
        (mem_isolatedOriginalIndices inp f m b k).mpr ⟨p, hp, hpB, hpk⟩⟩
    · rintro ⟨hkA, hkB⟩
      obtain ⟨p, hp, hpn, hpk⟩ := (mem_isolatedOriginalIndices inp f a m k).mp hkA
      obtain ⟨q, hq, hqn, hqk⟩ := (mem_isolatedOriginalIndices inp f m b k).mp hkB
      have hqp : q = p := getD_inj_of_nodup hnd (by rw [hlen]; exact hq)
        (by rw [hlen]; exact hp) (hqk.trans hpk.symm)
      rw [hqp] at hqn
      refine (mem_isolatedOriginalIndices inp f a b k).mpr ⟨p, hp, ?_, hpk⟩
      rw [hasNeighbor_split inp f h1 h2 p, hpn, hqn]
      rfl
  refine ⟨hasNeighbor_split inp f h1 h2, ?_⟩
  intro k hk
  rw [assembleOutput_getD inp f a b k 0 hk, assembleOutput_getD inp f a m k 0 hk,
    assembleOutput_getD inp f m b k 0 hk]
  by_cases hkA : k ∈ isolatedOriginalIndices inp f a m
  · by_cases hkB : k ∈ isolatedOriginalIndices inp f m b
    · rw [if_pos ((hiff k).mpr ⟨hkA, hkB⟩), if_pos hkA, if_pos hkB]
      simp
    · have hkF : k ∉ isolatedOriginalIndices inp f a b :=
        fun hmem => hkB ((hiff k).mp hmem).2
      rw [if_neg hkF, if_pos hkA, if_neg hkB]
      simp
  · have hkF : k ∉ isolatedOriginalIndices inp f a b :=
      fun hmem => hkA ((hiff k).mp hmem).1
    rw [if_neg hkF, if_neg hkA]
    simp

/-- Claim C8 witness: splitting the one-cell work range of `inpEx` at `m = 0`
merges back to the full run, both at the flag level and at the output level. -/
theorem C8_witness :
    hasNeighbor inpEx Halotools.trivial 0 1 0 =
      (hasNeighbor inpEx Halotools.trivial 0 0 0 ||
        hasNeighbor inpEx Halotools.trivial 0 1 0) ∧
    (assembleOutput inpEx Halotools.trivial 0 1).getD 0 0 =
      if (assembleOutput inpEx Halotools.trivial 0 0).getD 0 0 = 1 ∧
          (assembleOutput inpEx Halotools.trivial 0 1).getD 0 0 = 1
      then 1 else 0 :=
  ⟨(C8_partition_consistency inpEx Halotools.trivial 0 0 1 (by decide) (by decide)
      rfl rfl (by decide) _ _ _
      (engine_eq_assemble inpEx 0 1 Halotools.trivial rfl)
      (engine_eq_assemble inpEx 0 0 Halotools.trivial rfl)
      (engine_eq_assemble inpEx 0 1 Halotools.trivial rfl)).1 0,
   (C8_partition_consistency inpEx Halotools.trivial 0 0 1 (by decide) (by decide)
      rfl rfl (by decide) _ _ _
      (engine_eq_assemble inpEx 0 1 Halotools.trivial rfl)
      (engine_eq_assemble inpEx 0 0 Halotools.trivial rfl)
      (engine_eq_assemble inpEx 0 1 Halotools.trivial rfl)).2 0 (by decide)⟩

/-- Claim C9: when the periodicity flag is `0`, every primary point flagged as
having a neighbor genuinely has a secondary point whose plain (unshifted)
squared projected and line-of-sight separations pass the strict distance
tests, the predicate, and the nonzero-distance test. -/
theorem C9_no_pbc_soundness (inp : EngineInput) (f : CondFun) (a b p : ℕ)
    (hpbc : inp.double_mesh.PBCs = 0)
    (h : hasNeighbor inp f a b p = true) :
    ∃ gj, dxy_sq inp 0 0 p gj < (rp_max_squared inp).getD p 0 ∧
      dz_sq inp 0 p gj < (pi_max_squared inp).getD p 0 ∧
      f ((weights1 inp).getD p []) ((weights2 inp).getD gj []) = true ∧
      0 < dxy_sq inp 0 0 p gj + dz_sq inp 0 p gj := by
  unfold hasNeighbor at h
  rw [List.any_eq_true] at h
  obtain ⟨icell1, _, hcell⟩ := h
  have hscan : scanCell2s inp f icell1 p = true := (Bool.and_eq_true_iff.mp hcell).2
  unfold scanCell2s at hscan
  rw [List.any_eq_true] at hscan
  obtain ⟨v, _, hv⟩ := hscan
  rw [hpbc] at hv
  simp only [shiftOf_pbcs_zero] at hv
  rw [scanSecondaries_eq_any, List.any_eq_true] at hv
  obtain ⟨gj, _, hq⟩ := hv
  unfold qualifies at hq
  simp only [Bool.and_eq_true, decide_eq_true_eq] at hq
  obtain ⟨⟨⟨h1, h2⟩, h3⟩, h4⟩ := hq
  exact ⟨gj, h1, h2, h3, by linarith⟩

/-- The x-axis covering-step count of `inpEx` evaluates to `1`. -/
lemma inpEx_cov_x : num_x2_covering_steps inpEx = 1 := by
  show ⌈((1 : ℚ)/2) / (1 : ℚ)⌉ = 1
  rw [Int.ceil_eq_iff]
  norm_num

/-- The y-axis covering-step count of `inpEx` evaluates to `1`. -/
lemma inpEx_cov_y : num_y2_covering_steps inpEx = 1 := by
  show ⌈((1 : ℚ)/2) / (1 : ℚ)⌉ = 1
  rw [Int.ceil_eq_iff]
  norm_num

/-- The z-axis covering-step count of `inpEx` evaluates to `1`. -/
lemma inpEx_cov_z : num_z2_covering_steps inpEx = 1 := by
  show ⌈((1 : ℚ)/2) / (1 : ℚ)⌉ = 1
  rw [Int.ceil_eq_iff]
  norm_num

/-- The single pair of `inpEx` passes the innermost pair test. -/
lemma inpEx_qualifies : qualifies inpEx Halotools.trivial 0 0 0 0 0 = true := by
  obtain ⟨h1, h2, h3, h4⟩ := inpEx_conditions
  have h5 : 0 < dz_sq inpEx 0 0 0 + dxy_sq inpEx 0 0 0 0 := by linarith
  unfold qualifies
  simp only [Bool.and_eq_true, decide_eq_true_eq]
  exact ⟨⟨⟨h1, h2⟩, h3⟩, h5⟩

/-- The primary point of `inpEx` is flagged as having a neighbor when its
cell is scanned. -/
lemma inpEx_hasNeighbor : hasNeighbor inpEx Halotools.trivial 0 1 0 = true := by
  unfold hasNeighbor
  rw [List.any_eq_true]
  refine ⟨0, by decide, ?_⟩
  refine Bool.and_eq_true_iff.mpr ⟨by decide, ?_⟩
  unfold scanCell2s
  rw [List.any_eq_true]
  refine ⟨((0 : ℤ), (0 : ℤ), (0 : ℤ)), ?_, ?_⟩
  · show ((0 : ℤ), (0 : ℤ), (0 : ℤ)) ∈
      (xWindow inpEx 0).flatMap (fun cx =>
        (yWindow inpEx 0).flatMap (fun cy =>
          (zWindow inpEx 0).map (fun cz => (cx, cy, cz))))
    rw [List.mem_flatMap]
    refine ⟨0, ?_, ?_⟩
    · unfold xWindow
      rw [inpEx_cov_x]
      exact mem_intRange.mpr (by decide)
    · rw [List.mem_flatMap]
      refine ⟨0, ?_, ?_⟩
      · unfold yWindow
        rw [inpEx_cov_y]
        exact mem_intRange.mpr (by decide)
      · rw [List.mem_map]
        refine ⟨0, ?_, rfl⟩
        unfold zWindow
        rw [inpEx_cov_z]
        exact mem_intRange.mpr (by decide)
  · show scanSecondaries (fun gj => qualifies inpEx Halotools.trivial 0 0 0 0 gj) [0] =
      true
    simp [scanSecondaries, inpEx_qualifies]

/-- Claim C9 witness: in `inpEx` (periodicity disabled) the flagged primary
point has a genuine plain-distance neighbor. -/
theorem C9_witness :
    ∃ gj, dxy_sq inpEx 0 0 0 gj < (rp_max_squared inpEx).getD 0 0 ∧
      dz_sq inpEx 0 0 gj < (pi_max_squared inpEx).getD 0 0 ∧
      Halotools.trivial ((weights1 inpEx).getD 0 [])
        ((weights2 inpEx).getD gj []) = true ∧
      0 < dxy_sq inpEx 0 0 0 gj + dz_sq inpEx 0 0 gj :=
  C9_no_pbc_soundness inpEx Halotools.trivial 0 1 0 rfl inpEx_hasNeighbor

/-- Claim C10: a primary point whose sorted index lies in no scanned cell
slice is reported isolated (value `1`) at its original index; in particular
an empty work range reports every point as isolated. -/
theorem C10_unscanned_isolated (inp : EngineInput) (f : CondFun) (a b : ℕ)
    (hf : return_conditional_function inp.weight_func_idin = some f)
    (hlen : inp.double_mesh.mesh1.idx_sorted.length = inp.x1in.length)
    (hnd : inp.double_mesh.mesh1.idx_sorted.Nodup)
    (hlt : ∀ x ∈ inp.double_mesh.mesh1.idx_sorted, x < inp.x1in.length) :
    (∀ res, marked_cylindrical_isolation_engine inp a b = some res →
      ∀ p, p < inp.x1in.length →
      (∀ icell1, a ≤ icell1 → icell1 < b →
        ¬(inp.double_mesh.mesh1.cell_id_indices.getD icell1 0 ≤ p ∧
          p < inp.double_mesh.mesh1.cell_id_indices.getD (icell1 + 1) 0)) →
      res.getD (inp.double_mesh.mesh1.idx_sorted.getD p 0) 2 = 1) ∧
    (∀ res, marked_cylindrical_isolation_engine inp a a = some res →
      ∀ k, k < inp.x1in.length → res.getD k 0 = 1) := by
  constructor
  · intro res hres p hp hout
    have hres2 : res = assembleOutput inp f a b := by
      have h := engine_eq_assemble inp a b f hf
      rw [hres] at h
      exact Option.some.inj h
    subst hres2
    have hplen : p < inp.double_mesh.mesh1.idx_sorted.length := by
      rw [hlen]
      exact hp
    have hk : inp.double_mesh.mesh1.idx_sorted.getD p 0 < inp.x1in.length :=
      hlt _ (getD_mem_of_lt hplen)
    rw [assembleOutput_getD inp f a b _ 2 hk]
    have hfalse : hasNeighbor inp f a b p = false := by
      unfold hasNeighbor
      rw [List.any_eq_false]
      intro icell1 hmem
      rw [List.mem_range'_1] at hmem
      intro hcontra
      have h12 := (Bool.and_eq_true_iff.mp hcontra).1
      obtain ⟨hd1, hd2⟩ := Bool.and_eq_true_iff.mp h12
      exact hout icell1 hmem.1 (by omega)
        ⟨of_decide_eq_true hd1, of_decide_eq_true hd2⟩
    exact if_pos ((mem_isolatedOriginalIndices inp f a b _).mpr ⟨p, hp, hfalse, rfl⟩)
  · intro res hres k hk
    have hres2 : res = assembleOutput inp f a a := by
      have h := engine_eq_assemble inp a a f hf
      rw [hres] at h
      exact Option.some.inj h
    subst hres2
    rw [assembleOutput_getD inp f a a k 0 hk]
    obtain ⟨p, hp, hpd⟩ := getD_surj_of_nodup hlen hnd hlt hk
    have hfalse : hasNeighbor inp f a a p = false := by
      unfold hasNeighbor
      simp
    exact if_pos ((mem_isolatedOriginalIndices inp f a a k).mpr ⟨p, hp, hfalse, hpd⟩)

/-- Claim C10 witness: the empty work range of `inpEx` reports its point as
isolated. -/
theorem C10_witness : (assembleOutput inpEx Halotools.trivial 0 0).getD 0 0 = 1 :=
  (C10_unscanned_isolated inpEx Halotools.trivial 0 0 rfl rfl (by decide)
      (by decide)).2 (assembleOutput inpEx Halotools.trivial 0 0)
    (engine_eq_assemble inpEx 0 0 Halotools.trivial rfl) 0 (by decide)

end Halotools
